import Mathlib

/-!
Shallow embedding of the media-variant resolution layer of the grammers
client (files `photo_sizes.rs` and `media.rs`), together with proofs of
the specification claims about it.

Machine integers are modelled as `Int` (i64 / i32 fields) and `Nat`
(usize results, byte values); casts that matter are made explicit.
Byte vectors are `List Nat`, strings are `String`.  The transport client
handle is an opaque, cloneable capability, modelled as a wrapper around
a `Nat` identifier; this layer never inspects it, only stores and passes
it.  Asynchronous side effects are modelled as the finite trace of
actions a call issues, and a Rust panic (`unwrap` on `None`, `todo!`)
is modelled as an explicit `panic` outcome distinct from every normal
trace.
-/

/-- Opaque transport capability handle (`ClientHandle`), an external
collaborator.  Cloning yields an equal handle. -/
structure ClientHandle where
  handle : Nat
deriving DecidableEq, Repr

namespace tl.types

/-- Wire struct `tl::types::PhotoSizeEmpty`. -/
structure PhotoSizeEmpty where
  type : String
deriving DecidableEq, Repr

/-- Wire struct `tl::types::PhotoSize` (the `photoSize` constructor). -/
structure PhotoSize where
  type : String
  w : Int
  h : Int
  size : Int
deriving DecidableEq, Repr

/-- Wire struct `tl::types::PhotoCachedSize`. -/
structure PhotoCachedSize where
  type : String
  w : Int
  h : Int
  bytes : List Nat
deriving DecidableEq, Repr

/-- Wire struct `tl::types::PhotoStrippedSize`. -/
structure PhotoStrippedSize where
  type : String
  bytes : List Nat
deriving DecidableEq, Repr

/-- Wire struct `tl::types::PhotoSizeProgressive`. -/
structure PhotoSizeProgressive where
  type : String
  w : Int
  h : Int
  sizes : List Int
deriving DecidableEq, Repr

/-- Wire struct `tl::types::PhotoPathSize`. -/
structure PhotoPathSize where
  type : String
  bytes : List Nat
deriving DecidableEq, Repr

end tl.types

namespace tl.enums

/-- Wire enum `tl::enums::PhotoSize`: the six thumbnail-descriptor tags. -/
inductive PhotoSize where
  | Empty (s : tl.types.PhotoSizeEmpty)
  | Size (s : tl.types.PhotoSize)
  | PhotoCachedSize (s : tl.types.PhotoCachedSize)
  | PhotoStrippedSize (s : tl.types.PhotoStrippedSize)
  | Progressive (s : tl.types.PhotoSizeProgressive)
  | PhotoPathSize (s : tl.types.PhotoPathSize)
deriving DecidableEq, Repr

end tl.enums

namespace tl.types

/-- Wire struct `tl::types::PhotoEmpty`. -/
structure PhotoEmpty where
  id : Int
deriving DecidableEq, Repr

/-- Wire struct `tl::types::Photo`: identity fields plus the size list.
Only the fields this layer reads are modelled. -/
structure Photo where
  id : Int
  access_hash : Int
  file_reference : List Nat
  sizes : List tl.enums.PhotoSize
deriving DecidableEq, Repr

/-- Wire struct `tl::types::DocumentEmpty`. -/
structure DocumentEmpty where
  id : Int
deriving DecidableEq, Repr

/-- Wire struct `tl::types::Document`: identity fields read by this layer. -/
structure Document where
  id : Int
  access_hash : Int
  file_reference : List Nat
deriving DecidableEq, Repr

end tl.types

namespace tl.enums

/-- Wire enum `tl::enums::Photo`: photo-or-empty union. -/
inductive Photo where
  | Empty (p : tl.types.PhotoEmpty)
  | Photo (p : tl.types.Photo)
deriving DecidableEq, Repr

/-- Wire enum `tl::enums::Document`: document-or-empty union. -/
inductive Document where
  | Empty (d : tl.types.DocumentEmpty)
  | Document (d : tl.types.Document)
deriving DecidableEq, Repr

end tl.enums

namespace tl.types

/-- Wire struct `tl::types::MessageMediaPhoto`. -/
structure MessageMediaPhoto where
  photo : Option tl.enums.Photo
  ttl_seconds : Option Int
deriving DecidableEq, Repr

/-- Wire struct `tl::types::MessageMediaDocument`. -/
structure MessageMediaDocument where
  document : Option tl.enums.Document
  ttl_seconds : Option Int
deriving DecidableEq, Repr

/-- Wire struct `tl::types::InputFile` ("small" upload shape). -/
structure InputFile where
  id : Int
  parts : Int
  name : String
  md5_checksum : String
deriving DecidableEq, Repr

/-- Wire struct `tl::types::InputFileBig` ("big" upload shape). -/
structure InputFileBig where
  id : Int
  parts : Int
  name : String
deriving DecidableEq, Repr

/-- Wire struct `tl::types::InputPhotoFileLocation`. -/
structure InputPhotoFileLocation where
  id : Int
  access_hash : Int
  file_reference : List Nat
  thumb_size : String
deriving DecidableEq, Repr

/-- Wire struct `tl::types::InputDocumentFileLocation`. -/
structure InputDocumentFileLocation where
  id : Int
  access_hash : Int
  file_reference : List Nat
  thumb_size : String
deriving DecidableEq, Repr

end tl.types

namespace tl.enums

/-- Wire enum `tl::enums::InputFile`. -/
inductive InputFile where
  | File (f : tl.types.InputFile)
  | Big (f : tl.types.InputFileBig)
deriving DecidableEq, Repr

/-- Wire enum `tl::enums::InputFileLocation` (only the two members this
layer constructs, via `.into()`). -/
inductive InputFileLocation where
  | Photo (l : tl.types.InputPhotoFileLocation)
  | Document (l : tl.types.InputDocumentFileLocation)
deriving DecidableEq, Repr

/-- Wire enum `tl::enums::MessageMedia`: the thirteen media tags matched
by `Media::from_raw`.  Payloads of the tags that layer never reads are
modelled as `Unit`, mirroring the `_` patterns in the source. -/
inductive MessageMedia where
  | Empty
  | Photo (m : tl.types.MessageMediaPhoto)
  | Geo (m : Unit)
  | Contact (m : Unit)
  | Unsupported
  | Document (m : tl.types.MessageMediaDocument)
  | WebPage (m : Unit)
  | Venue (m : Unit)
  | Game (m : Unit)
  | Invoice (m : Unit)
  | GeoLive (m : Unit)
  | Poll (m : Unit)
  | Dice (m : Unit)
deriving DecidableEq, Repr

end tl.enums

/-! ## Domain model: `photo_sizes.rs` -/

/-- Domain struct `SizeEmpty`. -/
structure SizeEmpty where
  photo_type : String
deriving DecidableEq, Repr

/-- Domain struct `Size`: carries the parent photo's identity and a
clone of the client handle. -/
structure Size where
  photo_type : String
  width : Int
  height : Int
  size : Int
  id : Int
  access_hash : Int
  file_reference : List Nat
  client : ClientHandle
deriving DecidableEq, Repr

/-- Domain struct `CachedSize`. -/
structure CachedSize where
  photo_type : String
  width : Int
  height : Int
  bytes : List Nat
deriving DecidableEq, Repr

/-- Domain struct `StrippedSize`. -/
structure StrippedSize where
  photo_type : String
  bytes : List Nat
deriving DecidableEq, Repr

/-- Domain struct `ProgressiveSize`. -/
structure ProgressiveSize where
  photo_type : String
  width : Int
  height : Int
  sizes : List Int
deriving DecidableEq, Repr

/-- Domain struct `PathSize`. -/
structure PathSize where
  photo_type : String
  bytes : List Nat
deriving DecidableEq, Repr

/-- Domain enum `PhotoSize`: the closed set of photo-size descriptors. -/
inductive PhotoSize where
  | Empty (s : SizeEmpty)
  | Size (s : Size)
  | Cached (s : CachedSize)
  | Stripped (s : StrippedSize)
  | Progressive (s : ProgressiveSize)
  | Path (s : PathSize)
deriving DecidableEq, Repr

/-- `PhotoSize::make_from`: classify one raw size entry, threading the
parent photo's identity fields and the client handle into `Size`. -/
def PhotoSize.make_from (size : tl.enums.PhotoSize) (photo : tl.types.Photo)
    (client : ClientHandle) : PhotoSize :=
  match size with
  | .Empty s => PhotoSize.Empty { photo_type := s.type }
  | .Size s => PhotoSize.Size
      { photo_type := s.type, width := s.w, height := s.h, size := s.size,
        id := photo.id, access_hash := photo.access_hash,
        file_reference := photo.file_reference, client := client }
  | .PhotoCachedSize s => PhotoSize.Cached
      { photo_type := s.type, width := s.w, height := s.h, bytes := s.bytes }
  | .PhotoStrippedSize s => PhotoSize.Stripped
      { photo_type := s.type, bytes := s.bytes }
  | .Progressive s => PhotoSize.Progressive
      { photo_type := s.type, width := s.w, height := s.h, sizes := s.sizes }
  | .PhotoPathSize s => PhotoSize.Path
      { photo_type := s.type, bytes := s.bytes }

/-- The Rust cast `x as usize` applied to an `i32` value on a 64-bit
target: sign-extend to 64 bits and reinterpret as unsigned, i.e. reduce
modulo `2 ^ 64`. -/
def usizeOfI32 (n : Int) : Nat := (n % (2 : Int) ^ 64).toNat

/-- Wrap an integer into the `i32` value range, the semantics of
overflow in Rust release builds. -/
def wrap32 (n : Int) : Int := (n + 2 ^ 31) % 2 ^ 32 - 2 ^ 31

/-- `sizes.iter().sum::<i32>()`: left fold with `i32` wrapping addition. -/
def i32Sum (l : List Int) : Int := l.foldl (fun a x => wrap32 (a + x)) 0

/-- `PhotoSize::size`: the ranking key, a `usize`. -/
def PhotoSize.size : PhotoSize → Nat
  | .Empty _ => 0
  | .Size s => usizeOfI32 s.size
  | .Cached s => s.bytes.length
  | .Stripped s => s.bytes.length
  | .Progressive s => usizeOfI32 (i32Sum s.sizes)
  | .Path s => s.bytes.length

/-- `PhotoSize::photo_type`: the thumbnail-slot tag, uniform across all
variants. -/
def PhotoSize.photo_type : PhotoSize → String
  | .Empty s => s.photo_type
  | .Size s => s.photo_type
  | .Cached s => s.photo_type
  | .Stripped s => s.photo_type
  | .Progressive s => s.photo_type
  | .Path s => s.photo_type

/-- One observable effect of a download call. -/
inductive DownloadAction where
  | createFile (dest : String)
  | writeBytes (dest : String) (bytes : List Nat)
  | remoteFetch (loc : tl.enums.InputFileLocation) (dest : String)
deriving DecidableEq, Repr

/-- Outcome of a download call: either a trace of issued effects, or a
Rust panic (`todo!`), which aborts the calling task. -/
inductive DownloadResult where
  | ok (actions : List DownloadAction)
  | panic (msg : String)
deriving DecidableEq, Repr

/-- `PhotoSize::download`: per-variant retrieval strategy.  The remote
fetch and file-system effects are recorded as a trace; the three
`todo!("Not yet implemented")` arms are a panic outcome. -/
def PhotoSize.download (v : PhotoSize) (path : String) : DownloadResult :=
  match v with
  | .Empty _ => .ok [.createFile path]
  | .Size s => .ok [.remoteFetch
      (.Photo { id := s.id, access_hash := s.access_hash,
                file_reference := s.file_reference,
                thumb_size := s.photo_type }) path]
  | .Cached s => .ok [.createFile path, .writeBytes path s.bytes]
  | .Stripped _ => .panic "Not yet implemented"
  | .Progressive _ => .panic "Not yet implemented"
  | .Path _ => .panic "Not yet implemented"

/-- `VecExt::largest` for `Vec<PhotoSize>`:
`self.iter().max_by_key(|x| x.size())`.  Rust's `max_by_key` keeps the
later element on ties, a left fold replacing the accumulator whenever
the new element's key is at least the current one's. -/
def largest (l : List PhotoSize) : Option PhotoSize :=
  match l with
  | [] => none
  | a :: t => some (t.foldl (fun y x => if y.size ≤ x.size then x else y) a)

/-! ## Domain model: `media.rs` -/

/-- Domain struct `Photo`: raw photo-media record plus client handle. -/
structure Photo where
  photo : tl.types.MessageMediaPhoto
  client : ClientHandle
deriving DecidableEq, Repr

/-- Domain struct `Document`: raw document-media record plus client
handle. -/
structure Document where
  document : tl.types.MessageMediaDocument
  client : ClientHandle
deriving DecidableEq, Repr

/-- Domain struct `Uploaded`: an input-file descriptor, no client. -/
structure Uploaded where
  input_file : tl.enums.InputFile
deriving DecidableEq, Repr

/-- Domain enum `Media`. -/
inductive Media where
  | Photo (p : Photo)
  | Document (d : Document)
  | Uploaded (u : Uploaded)
deriving DecidableEq, Repr

/-- `Document::from_media`. -/
def Document.from_media (document : tl.types.MessageMediaDocument)
    (client : ClientHandle) : Document :=
  { document := document, client := client }

/-- `Document::to_input_location`: only a present, non-empty inner
document yields a locator, built from the document's identity fields
with a blank thumbnail-size tag. -/
def Document.to_input_location (d : Document) :
    Option tl.enums.InputFileLocation :=
  match d.document.document with
  | none => none
  | some (.Empty _) => none
  | some (.Document doc) => some (.Document
      { id := doc.id, access_hash := doc.access_hash,
        file_reference := doc.file_reference, thumb_size := "" })

/-- `Document::download`: if the inner union is present, fetch at the
locator when one exists; otherwise do nothing.  The value is the trace
of issued effects. -/
def Document.download (d : Document) (path : String) : List DownloadAction :=
  match d.document.document with
  | some _ =>
    match d.to_input_location with
    | some loc => [.remoteFetch loc path]
    | none => []
  | none => []

/-- `Photo::from_media`. -/
def Photo.from_media (photo : tl.types.MessageMediaPhoto)
    (client : ClientHandle) : Photo :=
  { photo := photo, client := client }

/-- `Photo::to_input_location`: only the non-empty inner union yields a
locator, built from the photo's own identity fields with a blank
thumbnail-size tag. -/
def Photo.to_input_location (p : Photo) : Option tl.enums.InputFileLocation :=
  match p.photo.photo with
  | none => none
  | some (.Empty _) => none
  | some (.Photo photo) => some (.Photo
      { id := photo.id, access_hash := photo.access_hash,
        file_reference := photo.file_reference, thumb_size := "" })

/-- `Photo::id`: `self.photo.photo.as_ref().unwrap()` then the inner
union's id.  The `unwrap` panic on an absent inner union is modelled as
`none`. -/
def Photo.id (p : Photo) : Option Int :=
  match p.photo.photo with
  | none => none
  | some (.Empty photo) => some photo.id
  | some (.Photo photo) => some photo.id

/-- `Photo::thumbs`: empty sequence when the inner union is absent or is
the empty-kind member; otherwise each raw size entry classified by
`make_from` with the parent's fields and a clone of the client. -/
def Photo.thumbs (p : Photo) : List PhotoSize :=
  match p.photo.photo with
  | none => []
  | some (.Empty _) => []
  | some (.Photo photo) =>
    photo.sizes.map (fun x => PhotoSize.make_from x photo p.client)

/-- `Media::from_raw`: partial classifier over the thirteen media tags. -/
def Media.from_raw (media : tl.enums.MessageMedia) (client : ClientHandle) :
    Option Media :=
  match media with
  | .Empty => none
  | .Photo photo => some (Media.Photo (Photo.from_media photo client))
  | .Geo _ => none
  | .Contact _ => none
  | .Unsupported => none
  | .Document document =>
      some (Media.Document (Document.from_media document client))
  | .WebPage _ => none
  | .Venue _ => none
  | .Game _ => none
  | .Invoice _ => none
  | .GeoLive _ => none
  | .Poll _ => none
  | .Dice _ => none

/-- `Media::to_input_location`: delegate to the variant's builder;
`Uploaded` has no remote read locator. -/
def Media.to_input_location (m : Media) : Option tl.enums.InputFileLocation :=
  match m with
  | .Photo photo => photo.to_input_location
  | .Uploaded _ => none
  | .Document doc => doc.to_input_location

/-! ## Specification-side definitions -/

/-- The maximum of `size()` over a sequence (0 when empty). -/
def maxSizeVal (l : List PhotoSize) : Nat :=
  l.foldl (fun a x => max a x.size) 0

/-- Written from the spec's words for the size-ranking selector: absence
on the empty sequence; otherwise, among the entries whose `size()` is
maximal, the last one in iteration order. -/
def lastMaxSpec (l : List PhotoSize) : Option PhotoSize :=
  (l.filter (fun x => x.size == maxSizeVal l)).getLast?

/-! ## Helper lemmas about the selector -/

theorem largest_nil : largest [] = none := rfl

theorem largest_eq_none (l : List PhotoSize) (h : largest l = none) : l = [] := by
  cases l with
  | nil => rfl
  | cons a t => simp [largest] at h

theorem largest_concat_none (l : List PhotoSize) (x : PhotoSize)
    (h : largest l = none) : largest (l ++ [x]) = some x := by
  rw [largest_eq_none l h]
  rfl

theorem largest_concat_some (l : List PhotoSize) (x y : PhotoSize)
    (h : largest l = some y) :
    largest (l ++ [x]) = if y.size ≤ x.size then some x else some y := by
  cases l with
  | nil => simp [largest] at h
  | cons a t =>
    simp only [largest, Option.some.injEq] at h
    subst h
    simp only [largest, List.cons_append, List.foldl_append, List.foldl_cons,
      List.foldl_nil]
    exact apply_ite some _ _ _

theorem maxSizeVal_nil : maxSizeVal [] = 0 := rfl

theorem maxSizeVal_concat (l : List PhotoSize) (x : PhotoSize) :
    maxSizeVal (l ++ [x]) = max (maxSizeVal l) x.size := by
  simp only [maxSizeVal, List.foldl_append, List.foldl_cons, List.foldl_nil]

theorem le_foldl_max (l : List PhotoSize) :
    ∀ a : Nat, a ≤ l.foldl (fun b y => max b y.size) a := by
  induction l with
  | nil => intro a; exact le_refl a
  | cons z t IH =>
    intro a
    simp only [List.foldl_cons]
    exact le_trans (le_max_left a z.size) (IH _)

theorem mem_le_foldl_max (l : List PhotoSize) :
    ∀ a : Nat, ∀ x ∈ l, x.size ≤ l.foldl (fun b y => max b y.size) a := by
  induction l with
  | nil => intro a x hx; exact absurd hx (List.not_mem_nil x)
  | cons z t IH =>
    intro a x hx
    simp only [List.foldl_cons]
    rcases List.mem_cons.mp hx with rfl | h
    · exact le_trans (le_max_right a x.size) (le_foldl_max t _)
    · exact IH _ x h

theorem maxSizeVal_ub (l : List PhotoSize) (x : PhotoSize) (hx : x ∈ l) :
    x.size ≤ maxSizeVal l :=
  mem_le_foldl_max l 0 x hx

theorem largest_size_eq_max (l : List PhotoSize) :
    ∀ y, largest l = some y → y.size = maxSizeVal l := by
  induction l using List.reverseRecOn with
  | nil => intro y h; exact absurd h (by simp [largest])
  | append_singleton l x IH =>
    intro y h
    rw [maxSizeVal_concat]
    rcases hl : largest l with _ | z
    · rw [largest_concat_none l x hl] at h
      have hnil := largest_eq_none l hl
      subst hnil
      cases h
      simp [maxSizeVal_nil]
    · rw [largest_concat_some l x z hl] at h
      have hz := IH z hl
      by_cases hle : z.size ≤ x.size
      · rw [if_pos hle] at h
        cases h
        rw [← hz]
        exact (max_eq_right hle).symm
      · rw [if_neg hle] at h
        cases h
        rw [← hz]
        exact (max_eq_left (le_of_not_le hle)).symm

theorem largest_is_ub (l : List PhotoSize) (m : PhotoSize)
    (hm : largest l = some m) : ∀ x ∈ l, x.size ≤ m.size := by
  intro x hx
  rw [largest_size_eq_max l m hm]
  exact maxSizeVal_ub l x hx

/-- Claim C1: over an empty sequence `largest` returns `none`; over a
non-empty sequence it returns an entry of maximal `size()`, and among
tied maxima the last one in iteration order — stated as equality with
the spec-side selector `lastMaxSpec`. -/
theorem largest_eq_lastMaxSpec (l : List PhotoSize) : largest l = lastMaxSpec l := by
  induction l using List.reverseRecOn with
  | nil => rfl
  | append_singleton l x IH =>
    rcases hl : largest l with _ | y
    · rw [largest_concat_none l x hl]
      have hnil := largest_eq_none l hl
      subst hnil
      simp [lastMaxSpec, maxSizeVal]
    · rw [largest_concat_some l x y hl]
      have hy := largest_size_eq_max l y hl
      unfold lastMaxSpec
      rw [maxSizeVal_concat, List.filter_append]
      by_cases hle : y.size ≤ x.size
      · rw [if_pos hle]
        rw [max_eq_right (hy ▸ hle)]
        simp
      · rw [if_neg hle]
        have hlt : x.size < y.size := lt_of_not_le hle
        rw [max_eq_left (le_of_lt (hy ▸ hlt))]
        have hxf : (x.size == maxSizeVal l) = false := by
          rw [← hy]
          simp only [beq_eq_false_iff_ne, ne_eq]
          exact Nat.ne_of_lt hlt
        have h2 : lastMaxSpec l = some y := by rw [← IH, hl]
        unfold lastMaxSpec at h2
        simp [hxf, h2]

/-! ## Helper lemmas about the integer casts -/

theorem wrap32_eq_self (n : Int) (h1 : -(2 ^ 31) ≤ n) (h2 : n < 2 ^ 31) :
    wrap32 n = n := by
  unfold wrap32
  rw [Int.emod_eq_of_lt (by omega) (by omega)]
  omega

theorem usizeOfI32_nonneg (n : Int) (h1 : 0 ≤ n) (h2 : n < 2 ^ 64) :
    usizeOfI32 n = n.toNat := by
  unfold usizeOfI32
  rw [Int.emod_eq_of_lt h1 (by omega)]

theorem usizeOfI32_neg (n : Int) (h1 : -(2 ^ 64) ≤ n) (h2 : n < 0) :
    (usizeOfI32 n : Int) = 2 ^ 64 + n := by
  unfold usizeOfI32
  have h : n % (2 : Int) ^ 64 = n + 2 ^ 64 := by omega
  rw [h, Int.toNat_of_nonneg (by omega)]
  omega

theorem i32Sum_eq_sum_aux (l : List Int) :
    ∀ a : Int, 0 ≤ a → (∀ x ∈ l, 0 ≤ x) → a + l.sum < 2 ^ 31 →
      l.foldl (fun b x => wrap32 (b + x)) a = a + l.sum := by
  induction l with
  | nil => intro a _ _ _; simp
  | cons x t IH =>
    intro a ha hx hs
    have hx0 : 0 ≤ x := hx x (List.mem_cons_self x t)
    have htnn : 0 ≤ t.sum :=
      List.sum_nonneg (fun y hy => hx y (List.mem_cons_of_mem x hy))
    have hsum : (x :: t).sum = x + t.sum := List.sum_cons
    simp only [List.foldl_cons]
    rw [wrap32_eq_self (a + x) (by omega) (by rw [hsum] at hs; omega)]
    rw [IH (a + x) (by omega) (fun y hy => hx y (List.mem_cons_of_mem x hy))
      (by rw [hsum] at hs; omega)]
    rw [hsum]
    ring

theorem i32Sum_eq_sum (l : List Int) (h0 : ∀ x ∈ l, 0 ≤ x)
    (h1 : l.sum < 2 ^ 31) : i32Sum l = l.sum := by
  unfold i32Sum
  have := i32Sum_eq_sum_aux l 0 le_rfl h0 (by omega)
  simpa using this

/-! ## Concrete example values used by counterexamples and witnesses -/

/-- A concrete client handle. -/
def clientEx : ClientHandle := { handle := 7 }

/-- A concrete `Size`-kind entry whose declared byte count is negative. -/
def sizeNegEx : Size :=
  { photo_type := "m", width := 90, height := 60, size := -1,
    id := 10, access_hash := 20, file_reference := [1, 2], client := clientEx }

/-- A concrete `Size`-kind entry with a genuine non-negative byte count. -/
def sizePosEx : Size :=
  { photo_type := "x", width := 800, height := 600, size := 100,
    id := 10, access_hash := 20, file_reference := [1, 2], client := clientEx }

/-- A concrete `Progressive`-kind entry with non-negative scan lengths. -/
def progEx : ProgressiveSize :=
  { photo_type := "p", width := 800, height := 600, sizes := [3, 4, 5] }

/-- Claim C2 counterexample: for the `Size`-kind entry whose declared
byte count is `-1`, `size()` is `2 ^ 64 - 1`, not the declared count. -/
theorem size_size_neg_count_counterexample :
    ((PhotoSize.Size sizeNegEx).size : Int) ≠ sizeNegEx.size := by
  decide

/-- Claim C2 (amended): `size()` returns 0 for `Empty`; the declared
byte count for `Size` provided that count is non-negative (a negative
count is reinterpreted as an unsigned 64-bit value, see the negative-cast
theorem); the length of the embedded bytes for `Cached`, `Stripped` and
`Path`; and the sum of the scan-length sequence for `Progressive`
provided the scan lengths are non-negative and their sum is below
`2 ^ 31`. -/
theorem size_reports_spec_values (e : SizeEmpty) (s : Size) (c : CachedSize)
    (st : StrippedSize) (p : ProgressiveSize) (pa : PathSize)
    (hs0 : 0 ≤ s.size) (hs1 : s.size < 2 ^ 31)
    (hp0 : ∀ x ∈ p.sizes, 0 ≤ x) (hp1 : p.sizes.sum < 2 ^ 31) :
    (PhotoSize.Empty e).size = 0 ∧
    ((PhotoSize.Size s).size : Int) = s.size ∧
    (PhotoSize.Cached c).size = c.bytes.length ∧
    (PhotoSize.Stripped st).size = st.bytes.length ∧
    (PhotoSize.Path pa).size = pa.bytes.length ∧
    ((PhotoSize.Progressive p).size : Int) = p.sizes.sum := by
  refine ⟨rfl, ?_, rfl, rfl, rfl, ?_⟩
  · show (usizeOfI32 s.size : Int) = s.size
    rw [usizeOfI32_nonneg s.size hs0 (by omega)]
    exact Int.toNat_of_nonneg hs0
  · show (usizeOfI32 (i32Sum p.sizes) : Int) = p.sizes.sum
    have hnn : 0 ≤ p.sizes.sum := List.sum_nonneg hp0
    rw [i32Sum_eq_sum p.sizes hp0 hp1, usizeOfI32_nonneg _ hnn (by omega)]
    exact Int.toNat_of_nonneg hnn

/-- Witness for the amended C2 theorem at concrete entries. -/
theorem size_reports_spec_values_witness :
    ((0 : Int) ≤ sizePosEx.size ∧ sizePosEx.size < 2 ^ 31 ∧
      (∀ x ∈ progEx.sizes, 0 ≤ x) ∧ progEx.sizes.sum < 2 ^ 31) ∧
    ((PhotoSize.Size sizePosEx).size : Int) = 100 ∧
    ((PhotoSize.Progressive progEx).size : Int) = 12 := by
  have h := size_reports_spec_values { photo_type := "a" } sizePosEx
    { photo_type := "c", width := 1, height := 1, bytes := [9] }
    { photo_type := "i", bytes := [8] } progEx
    { photo_type := "j", bytes := [7] }
    (by decide) (by decide) (by decide) (by decide)
  refine ⟨⟨by decide, by decide, by decide, by decide⟩, ?_, ?_⟩
  · rw [h.2.1]; decide
  · rw [h.2.2.2.2.2]; decide

/-- A concrete raw photo-media record with no inner union. -/
def mmPhotoEx : tl.types.MessageMediaPhoto := { photo := none, ttl_seconds := none }

/-- A concrete raw document-media record with no inner union. -/
def mmDocEx : tl.types.MessageMediaDocument := { document := none, ttl_seconds := none }

/-- A concrete wire photo with one remotely-fetched size entry. -/
def photoWireEx : tl.types.Photo :=
  { id := 5, access_hash := 6, file_reference := [1],
    sizes := [tl.enums.PhotoSize.Size { type := "m", w := 90, h := 60, size := 100 }] }

/-- A `Photo` whose inner union is the non-empty photo member. -/
def photoPresentEx : Photo :=
  { photo := { photo := some (tl.enums.Photo.Photo photoWireEx), ttl_seconds := none },
    client := clientEx }

/-- A `Photo` whose inner union is the empty-kind member. -/
def photoEmptyKindEx : Photo :=
  { photo := { photo := some (tl.enums.Photo.Empty { id := 3 }), ttl_seconds := none },
    client := clientEx }

/-- A `Photo` whose inner union is absent. -/
def photoAbsentEx : Photo :=
  { photo := { photo := none, ttl_seconds := none }, client := clientEx }

/-- Claim C3: `Media::from_raw` maps the `Photo` tag to the `Photo`
wrapper and the `Document` tag to the `Document` wrapper, each carrying
the client reference, and maps every other recognized tag to `none`. -/
theorem from_raw_classifies (client : ClientHandle) (m : tl.enums.MessageMedia) :
    (∀ p, m = tl.enums.MessageMedia.Photo p →
      Media.from_raw m client = some (Media.Photo { photo := p, client := client })) ∧
    (∀ d, m = tl.enums.MessageMedia.Document d →
      Media.from_raw m client =
        some (Media.Document { document := d, client := client })) ∧
    ((∀ p, m ≠ tl.enums.MessageMedia.Photo p) →
      (∀ d, m ≠ tl.enums.MessageMedia.Document d) →
      Media.from_raw m client = none) := by
  refine ⟨fun p hp => by subst hp; rfl, fun d hd => by subst hd; rfl, fun hp hd => ?_⟩
  cases m
  case Photo p => exact absurd rfl (hp p)
  case Document d => exact absurd rfl (hd d)
  all_goals rfl

/-- Witness for C3 at a photo record, a document record, and a geo
record. -/
theorem from_raw_classifies_witness :
    Media.from_raw (tl.enums.MessageMedia.Photo mmPhotoEx) clientEx =
      some (Media.Photo { photo := mmPhotoEx, client := clientEx }) ∧
    Media.from_raw (tl.enums.MessageMedia.Document mmDocEx) clientEx =
      some (Media.Document { document := mmDocEx, client := clientEx }) ∧
    Media.from_raw (tl.enums.MessageMedia.Geo ()) clientEx = none := by
  refine ⟨?_, ?_, ?_⟩
  · exact (from_raw_classifies clientEx _).1 mmPhotoEx rfl
  · exact (from_raw_classifies clientEx _).2.1 mmDocEx rfl
  · exact (from_raw_classifies clientEx _).2.2 (fun p h => by cases h)
      (fun d h => by cases h)

/-- Claim C6: `Photo::id` returns the identity of the present inner
union, for both the empty-kind and the photo-kind member, and fails
(the `unwrap` panic, modelled as `none`) when the inner union is
absent. -/
theorem photo_id_spec (p : Photo) :
    (∀ e, p.photo.photo = some (tl.enums.Photo.Empty e) →
      Photo.id p = some e.id) ∧
    (∀ ph, p.photo.photo = some (tl.enums.Photo.Photo ph) →
      Photo.id p = some ph.id) ∧
    (p.photo.photo = none → Photo.id p = none) := by
  refine ⟨fun e h => ?_, fun ph h => ?_, fun h => ?_⟩ <;> simp [Photo.id, h]

/-- Witness for C6 at a photo with an inner union and one without. -/
theorem photo_id_spec_witness :
    photoPresentEx.photo.photo = some (tl.enums.Photo.Photo photoWireEx) ∧
    Photo.id photoPresentEx = some 5 ∧
    photoAbsentEx.photo.photo = none ∧
    Photo.id photoAbsentEx = none := by
  refine ⟨rfl, ?_, rfl, (photo_id_spec photoAbsentEx).2.2 rfl⟩
  have h := (photo_id_spec photoPresentEx).2.1 photoWireEx rfl
  simpa using h

/-- Claim C7: the locator builder of `Photo` yields a locator exactly
when the inner union is present as the non-empty photo member, built
from the photo's own identity fields with a blank thumbnail-size tag;
an absent or empty-kind inner union yields `none`. -/
theorem photo_to_input_location_spec (p : Photo) :
    (∀ ph, p.photo.photo = some (tl.enums.Photo.Photo ph) →
      Photo.to_input_location p = some (tl.enums.InputFileLocation.Photo
        { id := ph.id, access_hash := ph.access_hash,
          file_reference := ph.file_reference, thumb_size := "" })) ∧
    ((∀ ph, p.photo.photo ≠ some (tl.enums.Photo.Photo ph)) →
      Photo.to_input_location p = none) := by
  constructor
  · intro ph h
    simp [Photo.to_input_location, h]
  · intro h
    cases hp : p.photo.photo with
    | none => simp [Photo.to_input_location, hp]
    | some pe =>
      cases pe with
      | Empty e => simp [Photo.to_input_location, hp]
      | Photo ph => exact absurd hp (h ph)

/-- Witness for C7 at a photo-kind inner union and at an empty-kind
inner union. -/
theorem photo_to_input_location_spec_witness :
    Photo.to_input_location photoPresentEx = some (tl.enums.InputFileLocation.Photo
      { id := 5, access_hash := 6, file_reference := [1], thumb_size := "" }) ∧
    Photo.to_input_location photoEmptyKindEx = none := by
  constructor
  · have h := (photo_to_input_location_spec photoPresentEx).1 photoWireEx rfl
    simpa using h
  · exact (photo_to_input_location_spec photoEmptyKindEx).2
      (fun ph h => by simp [photoEmptyKindEx] at h)

/-- Claim C9: for a `Photo` whose inner union is present but is the
empty-kind member, `thumbs()` returns the empty sequence. -/
theorem thumbs_empty_kind_nil (p : Photo) (e : tl.types.PhotoEmpty)
    (h : p.photo.photo = some (tl.enums.Photo.Empty e)) :
    Photo.thumbs p = [] := by
  simp [Photo.thumbs, h]

/-- Witness for C9 at a concrete empty-kind photo. -/
theorem thumbs_empty_kind_nil_witness :
    photoEmptyKindEx.photo.photo = some (tl.enums.Photo.Empty { id := 3 }) ∧
    Photo.thumbs photoEmptyKindEx = [] :=
  ⟨rfl, thumbs_empty_kind_nil photoEmptyKindEx { id := 3 } rfl⟩

/-- A concrete wire document. -/
def docWireEx : tl.types.Document := { id := 8, access_hash := 9, file_reference := [3] }

/-- A `Document` with a present, non-empty inner union. -/
def docPresentEx : Document :=
  { document := { document := some (tl.enums.Document.Document docWireEx),
                  ttl_seconds := none },
    client := clientEx }

/-- A `Document` whose inner union is present but is the empty-kind
member. -/
def docEmptyKindEx : Document :=
  { document := { document := some (tl.enums.Document.Empty { id := 7 }),
                  ttl_seconds := none },
    client := clientEx }

/-- A `Document` whose inner union is absent. -/
def docAbsentEx : Document := { document := mmDocEx, client := clientEx }

/-- Claim C4 counterexample: a document whose inner union is present but
is the empty-kind member issues no remote fetch at all, contradicting
"performs the remote fetch if the inner document union is present". -/
theorem document_download_counterexample :
    docEmptyKindEx.document.document.isSome = true ∧
    Document.download docEmptyKindEx "dest" = [] := ⟨rfl, rfl⟩

/-- Claim C4 (amended): `Document::download` performs the remote fetch
exactly when the inner union is present with the non-empty document
member, with the locator built from that document's identity fields and
a blank thumbnail-size tag; when the inner union is absent, or present
as the empty-kind member, it issues no remote call and completes without
effect. -/
theorem document_download_spec (d : Document) (path : String) :
    (∀ doc, d.document.document = some (tl.enums.Document.Document doc) →
      Document.download d path = [DownloadAction.remoteFetch
        (tl.enums.InputFileLocation.Document
          { id := doc.id, access_hash := doc.access_hash,
            file_reference := doc.file_reference, thumb_size := "" }) path]) ∧
    (d.document.document = none → Document.download d path = []) ∧
    (∀ e, d.document.document = some (tl.enums.Document.Empty e) →
      Document.download d path = []) := by
  refine ⟨fun doc h => ?_, fun h => ?_, fun e h => ?_⟩ <;>
    simp [Document.download, Document.to_input_location, h]

/-- Witness for the amended C4 theorem: a present non-empty document and
an absent inner union. -/
theorem document_download_spec_witness :
    docPresentEx.document.document = some (tl.enums.Document.Document docWireEx) ∧
    Document.download docPresentEx "dest" = [DownloadAction.remoteFetch
      (tl.enums.InputFileLocation.Document
        { id := 8, access_hash := 9, file_reference := [3], thumb_size := "" })
      "dest"] ∧
    docAbsentEx.document.document = none ∧
    Document.download docAbsentEx "dest" = [] := by
  refine ⟨rfl, ?_, rfl, (document_download_spec docAbsentEx "dest").2.1 rfl⟩
  have h := (document_download_spec docPresentEx "dest").1 docWireEx rfl
  simpa using h

/-- A concrete `Stripped`-kind entry. -/
def strippedEx : StrippedSize := { photo_type := "i", bytes := [1, 2, 3] }

/-- Claim C5 counterexample: downloading a concrete `Stripped` entry is
the `todo!` panic — an abort of the calling task — not a non-abort
failure value that a caller could feature-detect. -/
theorem unimplemented_download_counterexample :
    PhotoSize.download (PhotoSize.Stripped strippedEx) "dest" =
      DownloadResult.panic "Not yet implemented" := rfl

/-- Claim C5 (amended): for every `Stripped`, `Progressive` or `Path`
variant, the download dispatcher signals the unfinished strategy by the
distinguished `todo!` panic with the "Not yet implemented" message —
distinguishable from every completed effect trace, so not a silent
no-op — but it aborts the calling task rather than returning a
recoverable failure value. -/
theorem unimplemented_download_panics (v : PhotoSize) (path : String)
    (h : (∃ s, v = PhotoSize.Stripped s) ∨ (∃ s, v = PhotoSize.Progressive s) ∨
      (∃ s, v = PhotoSize.Path s)) :
    PhotoSize.download v path = DownloadResult.panic "Not yet implemented" ∧
    ∀ acts, PhotoSize.download v path ≠ DownloadResult.ok acts := by
  have hp : PhotoSize.download v path = DownloadResult.panic "Not yet implemented" := by
    rcases h with ⟨s, rfl⟩ | ⟨s, rfl⟩ | ⟨s, rfl⟩ <;> rfl
  refine ⟨hp, fun acts hc => ?_⟩
  rw [hp] at hc
  cases hc

/-- Witness for the amended C5 theorem at a concrete `Stripped` entry. -/
theorem unimplemented_download_panics_witness :
    ((∃ s, PhotoSize.Stripped strippedEx = PhotoSize.Stripped s) ∨
      (∃ s, PhotoSize.Stripped strippedEx = PhotoSize.Progressive s) ∨
      (∃ s, PhotoSize.Stripped strippedEx = PhotoSize.Path s)) ∧
    PhotoSize.download (PhotoSize.Stripped strippedEx) "d" =
      DownloadResult.panic "Not yet implemented" :=
  ⟨Or.inl ⟨strippedEx, rfl⟩,
    (unimplemented_download_panics (PhotoSize.Stripped strippedEx) "d"
      (Or.inl ⟨strippedEx, rfl⟩)).1⟩

/-- Claim C8: every `Size`-kind entry produced by `Photo::thumbs` carries
the parent photo's id, access-hash and file-reference plus a clone of
the client handle, and downloading it issues exactly one remote fetch
whose locator is that carried parent identity together with this entry's
own type tag as the thumbnail-size field. -/
theorem thumbs_size_entry_spec (p : Photo) (ph : tl.types.Photo)
    (hp : p.photo.photo = some (tl.enums.Photo.Photo ph))
    (s : Size) (hs : PhotoSize.Size s ∈ Photo.thumbs p) :
    s.id = ph.id ∧ s.access_hash = ph.access_hash ∧
    s.file_reference = ph.file_reference ∧ s.client = p.client ∧
    ∀ path, PhotoSize.download (PhotoSize.Size s) path =
      DownloadResult.ok [DownloadAction.remoteFetch
        (tl.enums.InputFileLocation.Photo
          { id := ph.id, access_hash := ph.access_hash,
            file_reference := ph.file_reference, thumb_size := s.photo_type })
        path] := by
  unfold Photo.thumbs at hs
  rw [hp] at hs
  rcases List.mem_map.mp hs with ⟨x, hx, hmk⟩
  cases x
  case Size ws =>
    simp only [PhotoSize.make_from] at hmk
    injection hmk with h
    subst h
    exact ⟨rfl, rfl, rfl, rfl, fun path => rfl⟩
  all_goals simp [PhotoSize.make_from] at hmk

/-- The `Size`-kind entry that `thumbs` produces for `photoPresentEx`. -/
def sizeFromThumbEx : Size :=
  { photo_type := "m", width := 90, height := 60, size := 100,
    id := 5, access_hash := 6, file_reference := [1], client := clientEx }

/-- Witness for C8 at the concrete photo with one raw `Size` entry. -/
theorem thumbs_size_entry_spec_witness :
    (photoPresentEx.photo.photo = some (tl.enums.Photo.Photo photoWireEx) ∧
      PhotoSize.Size sizeFromThumbEx ∈ Photo.thumbs photoPresentEx) ∧
    sizeFromThumbEx.id = 5 ∧ sizeFromThumbEx.client = clientEx ∧
    PhotoSize.download (PhotoSize.Size sizeFromThumbEx) "dest" =
      DownloadResult.ok [DownloadAction.remoteFetch
        (tl.enums.InputFileLocation.Photo
          { id := 5, access_hash := 6, file_reference := [1], thumb_size := "m" })
        "dest"] := by
  have hmem : PhotoSize.Size sizeFromThumbEx ∈ Photo.thumbs photoPresentEx := by
    decide
  have h := thumbs_size_entry_spec photoPresentEx photoWireEx rfl sizeFromThumbEx hmem
  refine ⟨⟨rfl, hmem⟩, rfl, rfl, ?_⟩
  have hd := h.2.2.2.2 "dest"
  simpa using hd

/-- Claim C10: for a `Size`-kind entry whose declared i32 byte count is
negative, `size()` is `2 ^ 64` plus that count, a value of at least
`2 ^ 63`, so it strictly outranks every entry whose `size()` is a
genuine non-negative byte count (below `2 ^ 63`), and whenever such an
entry is in a sequence, the entry `largest` selects has size at least
`2 ^ 63`. -/
theorem size_negative_cast_outranks (s : Size)
    (h1 : -(2 ^ 31) ≤ s.size) (h2 : s.size < 0) :
    ((PhotoSize.Size s).size : Int) = 2 ^ 64 + s.size ∧
    2 ^ 63 ≤ (PhotoSize.Size s).size ∧
    (∀ v : PhotoSize, v.size < 2 ^ 63 → v.size < (PhotoSize.Size s).size) ∧
    (∀ (l : List PhotoSize) (m : PhotoSize), PhotoSize.Size s ∈ l →
      largest l = some m → 2 ^ 63 ≤ m.size) := by
  have hc : ((PhotoSize.Size s).size : Int) = 2 ^ 64 + s.size :=
    usizeOfI32_neg s.size (by omega) h2
  have hge : 2 ^ 63 ≤ (PhotoSize.Size s).size := by omega
  refine ⟨hc, hge, fun v hv => lt_of_lt_of_le hv hge, fun l m hm hlm => ?_⟩
  exact le_trans hge (largest_is_ub l m hlm _ hm)

/-- Witness for C10: a negative-count entry outranking a genuine
100-byte entry, also through `largest`. -/
theorem size_negative_cast_outranks_witness :
    (-(2 ^ 31) ≤ sizeNegEx.size ∧ sizeNegEx.size < 0) ∧
    ((PhotoSize.Size sizeNegEx).size : Int) = 2 ^ 64 + sizeNegEx.size ∧
    (PhotoSize.Size sizePosEx).size < (PhotoSize.Size sizeNegEx).size ∧
    2 ^ 63 ≤ (PhotoSize.Size sizeNegEx).size := by
  have h := size_negative_cast_outranks sizeNegEx (by decide) (by decide)
  exact ⟨⟨by decide, by decide⟩, h.1, h.2.2.1 _ (by decide), h.2.1⟩
